import Mathlib

/-!
Verification of the WebAssembly OMG IR generator (32_64 variant,
`WasmOMGIRGenerator32_64.cpp`).  We shallowly embed the pieces of the
generator that the specification's testable claims are about: the
bounds-check lowering for linear-memory accesses, the division/remainder
trap checks, the operand-slot manager and its stack-height discipline,
the control-construct model (branch targets and the close-time phi
unification), the statically-out-of-bounds load trap path, the
`call_indirect` check chain, the float-to-integer truncations, the
direct-call inlining decision, and local-variable initialization.

Machine integers are modeled as `Nat`/`Int` with explicit `% 2^32`
where the 32-bit wrap matters.  IEEE float operands are modeled as
`Rat` plus an explicit NaN constructor; every comparison constant the
generator emits is a small integer exactly representable in the
relevant float format, so this models the emitted comparisons exactly.
-/

namespace WasmOMG

/-- B3 primitive value types (`B3::Type`), as used by the generator. -/
inductive B3Type where
  | int32
  | int64
  | float
  | double
  deriving DecidableEq, Repr

/-- The trap kinds (`ExceptionType`) the embedded operations can raise. -/
inductive ExceptionType where
  | outOfBoundsMemoryAccess
  | divisionByZero
  | integerOverflow
  | outOfBoundsTrunc
  | outOfBoundsCallIndirect
  | nullTableEntry
  | badSignature
  deriving DecidableEq, Repr

/-! ## Memory-access bounds checking (`emitCheckAndPreparePointer`, `load`) -/

/-- The size of the 32-bit address space. -/
def two32 : Nat := 4294967296

/-- Translated from `sumOverflows<uint32_t>(offset, size)`: whether the
`uint32_t` sum of offset and access size wraps. -/
def sumOverflows32 (a b : Nat) : Bool := decide (two32 ≤ a + b)

/-- Runtime semantics of the code emitted by
`OMGIRGenerator::emitCheckAndPreparePointer` in `MemoryMode::BoundsChecking`,
followed by the memory operation itself, for a 32-bit base pointer `p`,
accumulated constant offset `o` and access size `s`.  All address
arithmetic is 32-bit (`Add` on `Int32` operands wraps mod `2^32`).
The emitted code computes `highestAccess = p + o + s`, traps
OutOfBoundsMemoryAccess on `AboveEqual(pointer, highestAccess)` (the
overflow check), traps again on `Above(highestAccess, boundsCheckingSize)`
(the bounds check), and otherwise accesses `cachedMemory + p` with the
memory operation's constant offset `o` folded in by `emitLoadOp` /
`emitStoreOp` via `fixupPointerPlusOffset`.  `none` means a trap fired
before any memory was touched. -/
def emitCheckAndPreparePointer (memoryBase boundsCheckingSize p o s : Nat) :
    Option Nat :=
  let highestAccess := (p + o + s) % two32
  if decide (highestAccess ≤ p) then none
  else if decide (boundsCheckingSize < highestAccess) then none
  else some ((memoryBase + p + o) % two32)

/-- Runtime semantics of the address/trap behavior of `OMGIRGenerator::load`
(and identically of `store` and the atomic accesses): when
`sumOverflows<uint32_t>(offset, size)` holds, an unconditional
OutOfBoundsMemoryAccess trap patchpoint is emitted and no address is
computed; otherwise the access goes through `emitCheckAndPreparePointer`. -/
def loadAccess (memoryBase boundsCheckingSize p o s : Nat) : Option Nat :=
  if sumOverflows32 o s then none
  else emitCheckAndPreparePointer memoryBase boundsCheckingSize p o s

/-! ## Division and remainder checks (`emitChecksForModOrDiv`) -/

/-- The most negative signed integer of width `w`. -/
def intMinW (w : Nat) : Int := -(2 ^ (w - 1))

/-- The B3 opcodes routed through `emitChecksForModOrDiv`. -/
inductive B3DivOp where
  | div
  | mod
  | udiv
  | umod
  deriving DecidableEq, Repr

/-- Translated from `OMGIRGenerator::emitChecksForModOrDiv`: a `Check`
against `Equal(right, 0)` raising DivisionByZero is always emitted first;
when the operation is signed `Div`, a second `Check` against
`BitAnd(Equal(left, min), Equal(right, -1))` raising IntegerOverflow
follows.  Returns the trap the emitted checks raise, if any. -/
def emitChecksForModOrDiv (w : Nat) (operation : B3DivOp) (left right : Int) :
    Option ExceptionType :=
  if right = 0 then some .divisionByZero
  else if operation = .div ∧ left = intMinW w ∧ right = -1 then
    some .integerOverflow
  else none

/-- Semantics of B3's `chill(Mod)` opcode emitted by `addI32RemS` /
`addI64RemS`: like `Mod` (truncated remainder) but with the two corner
cases defined instead of undefined behavior. -/
def chillMod (w : Nat) (left right : Int) : Int :=
  if right = 0 then 0
  else if left = intMinW w ∧ right = -1 then 0
  else Int.tmod left right

/-- Runtime semantics of `addI32DivS` / `addI64DivS` (width `w`):
`emitChecksForModOrDiv(Div, ...)` then the signed truncated division. -/
def addDivS (w : Nat) (left right : Int) : Except ExceptionType Int :=
  match emitChecksForModOrDiv w .div left right with
  | some e => .error e
  | none => .ok (Int.tdiv left right)

/-- Runtime semantics of `addI32RemS` / `addI64RemS` (width `w`):
`emitChecksForModOrDiv(Mod, ...)` then the `chill(Mod)` operation. -/
def addRemS (w : Nat) (left right : Int) : Except ExceptionType Int :=
  match emitChecksForModOrDiv w .mod left right with
  | some e => .error e
  | none => .ok (chillMod w left right)

/-- Runtime semantics of `addI32DivU` / `addI64DivU` (width `w`), operands
as unsigned values: `emitChecksForModOrDiv(UDiv, ...)` then `UDiv`. -/
def addDivU (w : Nat) (left right : Nat) : Except ExceptionType Nat :=
  match emitChecksForModOrDiv w .udiv (Int.ofNat left) (Int.ofNat right) with
  | some e => .error e
  | none => .ok (left / right)

/-- Runtime semantics of `addI32RemU` / `addI64RemU` (width `w`):
`emitChecksForModOrDiv(UMod, ...)` then `UMod`. -/
def addRemU (w : Nat) (left right : Nat) : Except ExceptionType Nat :=
  match emitChecksForModOrDiv w .umod (Int.ofNat left) (Int.ofNat right) with
  | some e => .error e
  | none => .ok (left % right)

/-! ## Theorems for the memory bounds check (claim C1) -/

/-- C1: for a load or store with 32-bit base pointer `p`, constant offset
`o` and access size `s` (sizes are 1..16, in particular nonzero): when
`o + s` overflows `uint32`, the emitted code traps unconditionally and
performs no access; otherwise it traps exactly when `p + o + s` wraps
32 bits (which the emitted `AboveEqual(pointer, highestAccess)` check
detects) or when `highestAccess = p + o + s` exceeds the cached
bounds-checking size, and otherwise accesses `memoryBase + p + o`. -/
theorem load_boundsCheck_correct
    (memoryBase boundsCheckingSize p o s : Nat)
    (hp : p < two32) (hs : 1 ≤ s) :
    (two32 ≤ o + s →
      loadAccess memoryBase boundsCheckingSize p o s = none) ∧
    (o + s < two32 →
      (loadAccess memoryBase boundsCheckingSize p o s = none ↔
        two32 ≤ p + o + s ∨ boundsCheckingSize < p + o + s) ∧
      (p + o + s ≤ boundsCheckingSize → p + o + s < two32 →
        loadAccess memoryBase boundsCheckingSize p o s =
          some ((memoryBase + p + o) % two32))) := by
  constructor
  · intro hov
    simp [loadAccess, sumOverflows32, hov]
  · intro hno
    have hsum : ¬ two32 ≤ o + s := by omega
    have hwrap : p ≥ (p + o + s) % two32 ↔ two32 ≤ p + o + s := by
      constructor
      · intro hle
        by_contra hlt
        push_neg at hlt
        rw [Nat.mod_eq_of_lt hlt] at hle
        omega
      · intro hge
        have h2 : p + o + s < two32 + two32 := by omega
        have : (p + o + s) % two32 = p + o + s - two32 := by
          rw [Nat.mod_eq_sub_mod hge, Nat.mod_eq_of_lt (by omega)]
        omega
    constructor
    · constructor
      · intro hnone
        by_contra hc
        push_neg at hc
        obtain ⟨h1, h2⟩ := hc
        have hlt : p + o + s < two32 := by omega
        have hmod : (p + o + s) % two32 = p + o + s := Nat.mod_eq_of_lt hlt
        simp [loadAccess, sumOverflows32, hsum, emitCheckAndPreparePointer,
          hmod] at hnone
        omega
      · intro hor
        rcases hor with hge | hbig
        · have : (p + o + s) % two32 ≤ p := hwrap.mpr hge
          simp [loadAccess, sumOverflows32, hsum, emitCheckAndPreparePointer,
            this]
        · by_cases hge : two32 ≤ p + o + s
          · have : (p + o + s) % two32 ≤ p := hwrap.mpr hge
            simp [loadAccess, sumOverflows32, hsum,
              emitCheckAndPreparePointer, this]
          · push_neg at hge
            have hmod : (p + o + s) % two32 = p + o + s :=
              Nat.mod_eq_of_lt hge
            simp [loadAccess, sumOverflows32, hsum,
              emitCheckAndPreparePointer, hmod]
            omega
    · intro hinb hlt
      have hmod : (p + o + s) % two32 = p + o + s := Nat.mod_eq_of_lt hlt
      simp [loadAccess, sumOverflows32, hsum, emitCheckAndPreparePointer,
        hmod]
      omega

/-- Witness for `load_boundsCheck_correct` at a concrete in-bounds access. -/
theorem load_boundsCheck_correct_witness :
    (10 : Nat) < two32 ∧ (1 : Nat) ≤ 4 ∧
    ((two32 ≤ 8 + 4 → loadAccess 0 65536 10 8 4 = none) ∧
     (8 + 4 < two32 →
       (loadAccess 0 65536 10 8 4 = none ↔
         two32 ≤ 10 + 8 + 4 ∨ 65536 < 10 + 8 + 4) ∧
       (10 + 8 + 4 ≤ 65536 → 10 + 8 + 4 < two32 →
         loadAccess 0 65536 10 8 4 = some ((0 + 10 + 8) % two32)))) :=
  ⟨by norm_num [two32], by norm_num,
   load_boundsCheck_correct 0 65536 10 8 4 (by norm_num [two32]) (by norm_num)⟩

/-! ## Theorems for division/remainder traps (claim C2) -/

/-- C2: for every width `w` and every signed `x`: division and remainder
by zero trap DivisionByZero; signed division of `MIN` by `-1` traps
IntegerOverflow; signed remainder of `MIN` by `-1` evaluates to `0`
without trapping (the chill remainder, with no IntegerOverflow check
attached); and the unsigned division/remainder never trap
IntegerOverflow. -/
theorem divRem_trap_edgeCases (w : Nat) (x : Int) (a b : Nat) :
    addDivS w x 0 = .error .divisionByZero ∧
    addRemS w x 0 = .error .divisionByZero ∧
    addDivS w (intMinW w) (-1) = .error .integerOverflow ∧
    addRemS w (intMinW w) (-1) = .ok 0 ∧
    addDivU w a b ≠ .error .integerOverflow ∧
    addRemU w a b ≠ .error .integerOverflow := by
  refine ⟨?_, ?_, ?_, ?_, ?_, ?_⟩
  · simp [addDivS, emitChecksForModOrDiv]
  · simp [addRemS, emitChecksForModOrDiv]
  · simp [addDivS, emitChecksForModOrDiv]
  · simp [addRemS, emitChecksForModOrDiv, chillMod]
  · by_cases hb : b = 0 <;>
      simp [addDivU, emitChecksForModOrDiv, hb]
  · by_cases hb : b = 0 <;>
      simp [addRemU, emitChecksForModOrDiv, hb]

/-! ## Control-construct model (`ControlData`) -/

/-- The construct kinds (`BlockType`). -/
inductive BlockKind where
  | topLevel
  | block
  | loop
  | ifElse
  | tryBlk
  | catchBlk
  deriving DecidableEq, Repr

/-- A block signature: ordered argument and return types. -/
structure BlockSig where
  args : List B3Type
  rets : List B3Type
  deriving DecidableEq, Repr

/-- The fields of `ControlData` the branch/close logic consults.  Basic
blocks are identified by numbers; `phis` records the B3 types of the
construct's merge (`Phi`) nodes. -/
structure ControlData where
  controlBlockType : BlockKind
  signature : BlockSig
  stackSize : Nat
  continuation : Nat
  special : Nat
  phis : List B3Type
  deriving DecidableEq, Repr

/-- Translated from the `ControlData` constructor: every kind except
TopLevel records the entry stack height minus the argument count; a Loop
allocates one `Phi` per declared argument (the loop-carried values at
the header), every other kind one `Phi` per declared result. -/
def ControlData.make (signature : BlockSig) (ty : BlockKind)
    (stackSize : Nat) (continuation special : Nat) : ControlData :=
  { controlBlockType := ty
    signature := signature
    stackSize := if ty = .topLevel then stackSize
                 else stackSize - signature.args.length
    continuation := continuation
    special := special
    phis := if ty = .loop then signature.args else signature.rets }

/-- Translated from `ControlData::targetBlockForBranch`: a Loop's branch
target is its `special` block (the loop header holding the header phis),
every other construct's is the continuation. -/
def ControlData.targetBlockForBranch (d : ControlData) : Nat :=
  if d.controlBlockType = .loop then d.special else d.continuation

/-- Translated from `addBranch`: the emitted `Branch`/`Jump` goes to
`data.targetBlockForBranch()`. -/
def addBranchTarget (d : ControlData) : Nat := d.targetBlockForBranch

/-- Translated from `addSwitch`: each case and the fallthrough dispatch
to the corresponding construct's `targetBlockForBranch()`. -/
def addSwitchTargets (targets : List ControlData) (defaultTarget : ControlData) :
    List Nat × Nat :=
  (targets.map ControlData.targetBlockForBranch,
   defaultTarget.targetBlockForBranch)

/-- Translated from `endBlock`: the expression-stack tail is unified into
the construct's merge phis exactly when the construct is not a Loop
(`if (data.blockType() != BlockType::Loop) unifyValuesWithBlock(...)`). -/
def endBlockUnifies (d : ControlData) : Bool := d.controlBlockType ≠ .loop

/-- C4: a branch (or switch edge) to a Loop targets the loop's special
header block, which carries one phi per declared argument (the
loop-carried values), and closing a Loop performs no unification of the
expression-stack tail; for every other non-top-level construct kind a
branch targets the continuation, closing unifies the tail into the
result phis, and the phi list has one entry per declared result. -/
theorem branch_target_and_close_unification
    (sg : BlockSig) (h c sp : Nat) (bt : BlockKind) :
    addBranchTarget (ControlData.make sg bt h c sp) =
      (if bt = .loop then sp else c) ∧
    (addSwitchTargets [ControlData.make sg bt h c sp]
        (ControlData.make sg bt h c sp) =
      ([if bt = .loop then sp else c], if bt = .loop then sp else c)) ∧
    endBlockUnifies (ControlData.make sg bt h c sp) = (bt ≠ .loop) ∧
    (ControlData.make sg bt h c sp).phis =
      (if bt = .loop then sg.args else sg.rets) := by
  cases bt <;>
    simp [addBranchTarget, addSwitchTargets, ControlData.make,
      ControlData.targetBlockForBranch, endBlockUnifies]

/-! ## Statically-out-of-bounds load trap path (`load`, `atomicLoad`) -/

/-- The scalar load opcodes (`LoadOpType`). -/
inductive LoadOpType where
  | i32load8S
  | i32load8U
  | i32load16S
  | i32load16U
  | i32load
  | i64load8S
  | i64load8U
  | i64load16S
  | i64load16U
  | i64load32S
  | i64load32U
  | i64load
  | f32load
  | f64load
  deriving DecidableEq, Repr

/-- Translated from `sizeOfLoadOp`. -/
def sizeOfLoadOp : LoadOpType → Nat
  | .i32load8S | .i32load8U | .i64load8S | .i64load8U => 1
  | .i32load16S | .i32load16U | .i64load16S | .i64load16U => 2
  | .i32load | .i64load32S | .i64load32U | .f32load => 4
  | .i64load | .f64load => 8

/-- Shape of the B3 value chain produced by `emitLoadOp` for a load. -/
inductive LoadExpr where
  | load8S
  | load8Z
  | load16S
  | load16Z
  | loadI32
  | loadI64
  | sext32 (inner : LoadExpr)
  | zext32 (inner : LoadExpr)
  | bitCastToFloat (inner : LoadExpr)
  | bitCastToDouble (inner : LoadExpr)
  deriving DecidableEq, Repr

/-- The B3 type of a `LoadExpr`: sub-word loads produce `Int32`,
`SExt32`/`ZExt32` produce `Int64`, the ARMv7 `BitwiseCast` forms produce
`Float`/`Double`. -/
def LoadExpr.b3Type : LoadExpr → B3Type
  | .loadI64 => .int64
  | .sext32 _ => .int64
  | .zext32 _ => .int64
  | .bitCastToFloat _ => .float
  | .bitCastToDouble _ => .double
  | _ => .int32

/-- Translated from `emitLoadOp` (the success path of `load`): which
value chain each opcode emits.  On this 32_64 target F32/F64 loads are
integer loads followed by a `BitwiseCast` (unaligned FP loads can
fault). -/
def emitLoadOp : LoadOpType → LoadExpr
  | .i32load8S => .load8S
  | .i64load8S => .sext32 .load8S
  | .i32load8U => .load8Z
  | .i64load8U => .zext32 .load8Z
  | .i32load16S => .load16S
  | .i64load16S => .sext32 .load16S
  | .i32load16U => .load16Z
  | .i64load16U => .zext32 .load16Z
  | .i32load => .loadI32
  | .i64load32U => .zext32 .loadI32
  | .i64load32S => .sext32 .loadI32
  | .i64load => .loadI64
  | .f32load => .bitCastToFloat .loadI32
  | .f64load => .bitCastToDouble .loadI64

/-- Translated from the statically-out-of-bounds branch of `load`: after
the unconditional trap patchpoint, exactly one constant is pushed; this
gives its B3 type and value per opcode. -/
def loadTrapPathPush : LoadOpType → B3Type × Int
  | .i32load8S | .i32load16S | .i32load | .i32load16U | .i32load8U =>
    (.int32, 0)
  | .i64load8S | .i64load8U | .i64load16S | .i64load32U | .i64load32S
  | .i64load | .i64load16U => (.int64, 0)
  | .f32load => (.float, 0)
  | .f64load => (.double, 0)

/-- The value types an atomic access can carry (I32 or I64 only). -/
inductive AtomicValueType where
  | i32
  | i64
  deriving DecidableEq, Repr

/-- Access widths of atomic operations. -/
inductive AtomicWidth where
  | w8
  | w16
  | w32
  | w64
  deriving DecidableEq, Repr

/-- Translated from the statically-out-of-bounds branch of `atomicLoad`:
the constant pushed after the unconditional trap. -/
def atomicLoadTrapPathPush : AtomicValueType → B3Type × Int
  | .i32 => (.int32, 0)
  | .i64 => (.int64, 0)

/-- Translated from `sanitizeAtomicResult`: the B3 type of the value the
success path of an atomic load pushes (an `I64` access that is not
`Width64` goes through `ZExt32`, so always lands on `Int64`; an `I32`
access stays `Int32` after the `BitAnd` masking). -/
def sanitizeAtomicResultType : AtomicValueType → AtomicWidth → B3Type
  | .i64, .w64 => .int64
  | .i64, _ => .int64
  | .i32, _ => .int32

/-- C5: for every scalar load opcode and every atomic load, the
statically-out-of-bounds trap path pushes exactly one constant-zero
value whose B3 type equals the type the success path pushes, so both
paths leave the operand stack at the same height with the same slot
types. -/
theorem trapPath_stack_matches_successPath
    (op : LoadOpType) (vt : AtomicValueType) (w : AtomicWidth) :
    (loadTrapPathPush op).1 = (emitLoadOp op).b3Type ∧
    (loadTrapPathPush op).2 = 0 ∧
    (atomicLoadTrapPathPush vt).1 = sanitizeAtomicResultType vt w ∧
    (atomicLoadTrapPathPush vt).2 = 0 := by
  cases op <;> cases vt <;> cases w <;>
    simp [loadTrapPathPush, emitLoadOp, LoadExpr.b3Type,
      atomicLoadTrapPathPush, sanitizeAtomicResultType]

/-! ## Local-variable initialization (`addLocal`) -/

/-- The wasm value types relevant to `addLocal`. -/
inductive WasmType where
  | i32
  | i64
  | f32
  | f64
  | v128
  | funcref
  | externref
  | refNonNull
  deriving DecidableEq, Repr

/-- Translated from `isRefType` as used by `addLocal`. -/
def WasmType.isRef : WasmType → Bool
  | .funcref | .externref | .refNonNull => true
  | _ => false

/-- The initial constant stored into a freshly declared local. -/
inductive InitConst where
  | numericZero
  | nullRef
  | zeroVector
  deriving DecidableEq, Repr

/-- Translated from the initializer chosen inside `addLocal`'s
`appendUsingFunctor` closure: V128 locals get the zero vector constant,
reference-typed locals get `JSValue::encode(jsNull())`, everything else
gets the numeric constant `0`. -/
def localInitValue (t : WasmType) : InitConst :=
  if t = .v128 then .zeroVector
  else if t.isRef then .nullRef
  else .numericZero

/-- Translated from `OMGIRGenerator::addLocal`: appends `count` fresh
locals of type `t`, emitting for each a `Set` of the initial constant at
declaration time.  Returns the new locals list and the emitted `Set`
operations as (local index, constant) pairs, appended to the block
before any body bytecode is lowered. -/
def addLocal (locals : List (WasmType × InitConst)) (t : WasmType)
    (count : Nat) : List (WasmType × InitConst) × List (Nat × InitConst) :=
  (locals ++ List.replicate count (t, localInitValue t),
   (List.range count).map (fun i => (locals.length + i, localInitValue t)))

/-- C9: every local declared beyond the parameters is initialized at
declaration time: `addLocal` emits exactly one initializing `Set` per new
local, and the stored constant is null for reference types, the zero
vector for v128, and numeric zero otherwise. -/
theorem addLocal_initializes
    (locals : List (WasmType × InitConst)) (t : WasmType) (count : Nat) :
    ((addLocal locals t count).1 =
      locals ++ List.replicate count (t, localInitValue t)) ∧
    ((addLocal locals t count).2.length = count) ∧
    (∀ pr ∈ (addLocal locals t count).2, pr.2 = localInitValue t) ∧
    (localInitValue t =
      if t = .v128 then .zeroVector
      else if t.isRef then .nullRef else .numericZero) := by
  refine ⟨rfl, by simp [addLocal], ?_, rfl⟩
  intro pr hpr
  simp [addLocal] at hpr
  obtain ⟨i, _, hi⟩ := hpr
  simp [← hi]

/-! ## Indirect-call checks (`addCallIndirect`) -/

/-- A `FuncRefTable::Function` entry as `addCallIndirect` reads it: the
callee's signature fingerprint (`0` encodes an uninitialized entry's
invalid signature index), and the callee RTT's display size and
supertype display payload. -/
structure FuncRefEntry where
  sigIndex : Nat
  rttDisplaySize : Nat
  rttDisplay : List Nat
  deriving DecidableEq, Repr

/-- The compile-time and instance state `addCallIndirect` consults. -/
structure IndirectCallSetup where
  tableLength : Nat
  entries : List FuncRefEntry
  expectedSig : Nat
  expectedRTT : Nat
  expectedRTTDisplaySize : Nat
  useWasmGC : Bool
  isFinalType : Bool
  deriving Repr

/-- Outcome of the emitted check chain of an indirect call. -/
inductive IndirectCallOutcome where
  | trap (e : ExceptionType)
  | callFast
  | callChecked
  deriving DecidableEq, Repr

/-- Translated from `OMGIRGenerator::addCallIndirect`: bounds-check the
index against the table length (`AboveEqual` traps
OutOfBoundsCallIndirect); load the entry and compare its signature
fingerprint against the expected one, proceeding directly to the call on
equality; on mismatch, trap NullTableEntry when the entry's signature
index is the invalid (zero) marker; then, when GC types are enabled and
the expected signature is not final, check that the callee RTT display
is non-empty, larger than the expected signature's display when the
latter is non-empty, and holds the expected signature's RTT at slot
`rttSize - (1 + (parentHasEntries ? parentDisplaySize : 0))`; any
failure lands in the BadSignature throw block, as does a mismatch with a
final expected signature or with GC types disabled. -/
def checkEntrySignature (st : IndirectCallSetup) (e : FuncRefEntry) :
    IndirectCallOutcome :=
  if e.sigIndex = st.expectedSig then .callFast
  else if e.sigIndex = 0 then .trap .nullTableEntry
  else if st.useWasmGC ∧ ¬ st.isFinalType then
    if ¬ 0 < e.rttDisplaySize then .trap .badSignature
    else if 0 < st.expectedRTTDisplaySize ∧
        ¬ st.expectedRTTDisplaySize < e.rttDisplaySize then
      .trap .badSignature
    else if e.rttDisplay.getD
        (e.rttDisplaySize -
          (1 + if 0 < st.expectedRTTDisplaySize
               then st.expectedRTTDisplaySize else 0)) 0 =
        st.expectedRTT then .callChecked
    else .trap .badSignature
  else .trap .badSignature

/-- The index bounds check (`AboveEqual(calleeIndex, length)` trapping
OutOfBoundsCallIndirect) guarding `checkEntrySignature`. -/
def addCallIndirect (st : IndirectCallSetup) (calleeIndex : Nat) :
    IndirectCallOutcome :=
  if st.tableLength ≤ calleeIndex then .trap .outOfBoundsCallIndirect
  else checkEntrySignature st (st.entries.getD calleeIndex ⟨0, 0, []⟩)

/-- C6: with a valid (nonzero) expected fingerprint: an index at or past
the table length traps OutOfBoundsCallIndirect; an in-range
uninitialized entry traps NullTableEntry; fingerprint equality proceeds
with no further check; on mismatch, a final expected signature or
disabled GC types traps BadSignature directly, and otherwise the call
proceeds exactly when the display-size checks pass and the expected
signature's RTT sits at the computed display slot, trapping BadSignature
in every other case. -/
theorem addCallIndirect_checks (st : IndirectCallSetup) (i : Nat)
    (e : FuncRefEntry) (hsig : st.expectedSig ≠ 0) :
    (st.tableLength ≤ i →
      addCallIndirect st i = .trap .outOfBoundsCallIndirect) ∧
    (i < st.tableLength →
      addCallIndirect st i =
        checkEntrySignature st (st.entries.getD i ⟨0, 0, []⟩)) ∧
    (e.sigIndex = 0 →
      checkEntrySignature st e = .trap .nullTableEntry) ∧
    (e.sigIndex = st.expectedSig →
      checkEntrySignature st e = .callFast) ∧
    (e.sigIndex ≠ st.expectedSig → e.sigIndex ≠ 0 →
      (st.isFinalType = true ∨ st.useWasmGC = false) →
      checkEntrySignature st e = .trap .badSignature) ∧
    (e.sigIndex ≠ st.expectedSig → e.sigIndex ≠ 0 →
      st.useWasmGC = true → st.isFinalType = false →
      (checkEntrySignature st e = .callChecked ∨
       checkEntrySignature st e = .trap .badSignature) ∧
      (checkEntrySignature st e = .callChecked ↔
        (0 < e.rttDisplaySize ∧
         (0 < st.expectedRTTDisplaySize →
           st.expectedRTTDisplaySize < e.rttDisplaySize) ∧
         e.rttDisplay.getD
           (e.rttDisplaySize -
             (1 + if 0 < st.expectedRTTDisplaySize
                  then st.expectedRTTDisplaySize else 0)) 0 =
           st.expectedRTT))) := by
  refine ⟨?_, ?_, ?_, ?_, ?_, ?_⟩
  · intro hle
    unfold addCallIndirect
    rw [if_pos hle]
  · intro hlt
    unfold addCallIndirect
    rw [if_neg (by omega)]
  · intro hzero
    have hne : e.sigIndex ≠ st.expectedSig := by
      rw [hzero]
      exact fun h => hsig h.symm
    unfold checkEntrySignature
    rw [if_neg hne, if_pos hzero]
  · intro heq
    unfold checkEntrySignature
    rw [if_pos heq]
  · intro hne hzero hfin
    have hgc : ¬ ((st.useWasmGC = true) ∧ ¬ (st.isFinalType = true)) := by
      rcases hfin with h | h
      · intro hc
        exact hc.2 h
      · intro hc
        rw [h] at hc
        exact Bool.false_ne_true hc.1
    unfold checkEntrySignature
    rw [if_neg hne, if_neg hzero, if_neg hgc]
  · intro hne hzero hgc hfin
    have hgcp : (st.useWasmGC = true) ∧ ¬ (st.isFinalType = true) :=
      ⟨hgc, by rw [hfin]; exact Bool.false_ne_true⟩
    unfold checkEntrySignature
    rw [if_neg hne, if_neg hzero, if_pos hgcp]
    by_cases h1 : 0 < e.rttDisplaySize
    · rw [if_neg (not_not_intro h1)]
      by_cases h2 : 0 < st.expectedRTTDisplaySize ∧
          ¬ st.expectedRTTDisplaySize < e.rttDisplaySize
      · rw [if_pos h2]
        refine ⟨Or.inr rfl, ?_, ?_⟩
        · intro hc
          exact absurd hc (by decide)
        · rintro ⟨hh1, hh2, hh3⟩
          exact absurd (hh2 h2.1) h2.2
      · by_cases h3 : e.rttDisplay.getD
            (e.rttDisplaySize -
              (1 + if 0 < st.expectedRTTDisplaySize
                   then st.expectedRTTDisplaySize else 0)) 0 =
            st.expectedRTT
        · rw [if_neg h2, if_pos h3]
          refine ⟨Or.inl rfl, ?_, ?_⟩
          · intro _
            refine ⟨h1, ?_, h3⟩
            intro hp
            by_contra hcon
            exact h2 ⟨hp, hcon⟩
          · intro _
            rfl
        · rw [if_neg h2, if_neg h3]
          refine ⟨Or.inr rfl, ?_, ?_⟩
          · intro hc
            exact absurd hc (by decide)
          · rintro ⟨hh1, hh2, hh3⟩
            exact absurd hh3 h3
    · rw [if_pos h1]
      refine ⟨Or.inr rfl, ?_, ?_⟩
      · intro hc
        exact absurd hc (by decide)
      · rintro ⟨hh1, hh2, hh3⟩
        exact absurd hh1 h1

/-- Witness for `addCallIndirect_checks`: a two-entry table where index 0
holds a matching fingerprint; probing out-of-bounds index 5 traps
OutOfBoundsCallIndirect, and a null entry traps NullTableEntry. -/
theorem addCallIndirect_checks_witness :
    ((⟨2, [⟨7, 1, [9]⟩, ⟨0, 0, []⟩], 7, 9, 0, true, false⟩ :
        IndirectCallSetup).expectedSig ≠ 0) ∧
    ((2 : Nat) ≤ 5 →
      addCallIndirect ⟨2, [⟨7, 1, [9]⟩, ⟨0, 0, []⟩], 7, 9, 0, true, false⟩ 5 =
        .trap .outOfBoundsCallIndirect) ∧
    ((⟨0, 0, []⟩ : FuncRefEntry).sigIndex = 0 →
      checkEntrySignature
        ⟨2, [⟨7, 1, [9]⟩, ⟨0, 0, []⟩], 7, 9, 0, true, false⟩ ⟨0, 0, []⟩ =
        .trap .nullTableEntry) := by
  have h := addCallIndirect_checks
    ⟨2, [⟨7, 1, [9]⟩, ⟨0, 0, []⟩], 7, 9, 0, true, false⟩ 5 ⟨0, 0, []⟩
    (by decide)
  exact ⟨by decide, h.1, h.2.2.1⟩

/-! ## Float-to-integer truncations (`addIxxTruncYzz`, `truncSaturated`) -/

/-- A float operand: NaN, or a finite value given exactly as a rational.
Every comparison constant the truncation lowerings emit is an integer
exactly representable in the respective float format, so comparisons
against them are modeled exactly. -/
inductive FVal where
  | nan
  | fin (q : Rat)
  deriving DecidableEq

/-- B3 `LessThan` on floats: false whenever an operand is NaN. -/
def fLessThan : FVal → FVal → Bool
  | .fin a, .fin b => decide (a < b)
  | _, _ => false

/-- B3 `GreaterThan` on floats: false whenever an operand is NaN. -/
def fGreaterThan : FVal → FVal → Bool
  | .fin a, .fin b => decide (b < a)
  | _, _ => false

/-- B3 `GreaterEqual` on floats: false whenever an operand is NaN. -/
def fGreaterEqual : FVal → FVal → Bool
  | .fin a, .fin b => decide (b ≤ a)
  | _, _ => false

/-- B3 `Equal` on floats: NaN compares unequal even to itself (this is
how `truncSaturated` detects NaN). -/
def fEqual : FVal → FVal → Bool
  | .fin a, .fin b => decide (a = b)
  | _, _ => false

/-- The eight float-to-integer truncation shapes, shared by the trapping
forms (`addI32TruncSF64` etc.) and the saturating forms
(`truncSaturated` on `I32TruncSatF64S` etc.): target width/signedness
and source float format. -/
inductive TruncOp where
  | i32sF64
  | i32sF32
  | i32uF64
  | i32uF32
  | i64sF64
  | i64sF32
  | i64uF64
  | i64uF32
  deriving DecidableEq, Repr

/-- The `max` comparison constant of each trapping truncation, translated
from the C++ constant expressions (all are powers of two, exactly
representable in the respective format; e.g. `-(double)INT32_MIN = 2^31`,
`(double)INT32_MIN * -2.0 = 2^32`, `-(double)INT64_MIN = 2^63`). -/
def truncMax : TruncOp → Rat
  | .i32sF64 => 2147483648
  | .i32sF32 => 2147483648
  | .i32uF64 => 4294967296
  | .i32uF32 => 4294967296
  | .i64sF64 => 9223372036854775808
  | .i64sF32 => 9223372036854775808
  | .i64uF64 => 18446744073709551616
  | .i64uF32 => 18446744073709551616

/-- The `min` comparison constant of each trapping truncation, translated
from the C++ constant expressions (`(double)INT32_MIN - 1.0 = -2^31 - 1`
is exact in double; `(float)INT32_MIN = -2^31` and
`(double)INT64_MIN = (float)INT64_MIN = -2^63` are exact powers of two;
unsigned forms use `-1.0`). -/
def truncMin : TruncOp → Rat
  | .i32sF64 => -2147483649
  | .i32sF32 => -2147483648
  | .i32uF64 => -1
  | .i32uF32 => -1
  | .i64sF64 => -9223372036854775808
  | .i64sF32 => -9223372036854775808
  | .i64uF64 => -1
  | .i64uF32 => -1

/-- Whether the lower-bound comparison emitted by the trapping form is
`GreaterEqual` (the forms whose `min` constant is itself in range)
rather than `GreaterThan`, as in each `addIxxTruncYzz` body. -/
def truncMinIsGE : TruncOp → Bool
  | .i32sF32 | .i64sF64 | .i64sF32 => true
  | _ => false

/-- The largest value of each truncation's target integer type. -/
def truncIntMax : TruncOp → Int
  | .i32sF64 | .i32sF32 => 2147483647
  | .i32uF64 | .i32uF32 => 4294967295
  | .i64sF64 | .i64sF32 => 9223372036854775807
  | .i64uF64 | .i64uF32 => 18446744073709551615

/-- The smallest value of each truncation's target integer type. -/
def truncIntMin : TruncOp → Int
  | .i32sF64 | .i32sF32 => -2147483648
  | .i64sF64 | .i64sF32 => -9223372036854775808
  | _ => 0

/-- Translated from the trapping truncations: the emitted `Check` traps
OutOfBoundsTrunc unless
`BitAnd(LessThan(arg, max), Greater[Equal|Than](arg, min))` holds; only
when the check passes does the hardware truncate patchpoint (or CCall)
run. -/
def truncTraps (op : TruncOp) (x : FVal) : Bool :=
  !(fLessThan x (.fin (truncMax op)) &&
    (if truncMinIsGE op then fGreaterEqual x (.fin (truncMin op))
     else fGreaterThan x (.fin (truncMin op))))

/-- Truncation toward zero of a finite rational: the result the hardware
truncate produces on in-range inputs. -/
def truncQ (q : Rat) : Int := if 0 ≤ q then ⌊q⌋ else ⌈q⌉

/-- The `maxFloat` constant of each saturating truncation, from the first
switch of `truncSaturated` (identical values to the trapping forms). -/
def satMaxFloat : TruncOp → Rat
  | .i32sF64 => 2147483648
  | .i32sF32 => 2147483648
  | .i32uF64 => 4294967296
  | .i32uF32 => 4294967296
  | .i64sF64 => 9223372036854775808
  | .i64sF32 => 9223372036854775808
  | .i64uF64 => 18446744073709551616
  | .i64uF32 => 18446744073709551616

/-- The `minFloat` constant of each saturating truncation, from the first
switch of `truncSaturated`. -/
def satMinFloat : TruncOp → Rat
  | .i32sF64 => -2147483649
  | .i32sF32 => -2147483648
  | .i32uF64 => -1
  | .i32uF32 => -1
  | .i64sF64 => -9223372036854775808
  | .i64sF32 => -9223372036854775808
  | .i64uF64 => -1
  | .i64uF32 => -1

/-- The `maxResult` constant of each saturating truncation (unsigned
results read as unsigned values). -/
def satMaxResult : TruncOp → Int
  | .i32sF64 | .i32sF32 => 2147483647
  | .i32uF64 | .i32uF32 => 4294967295
  | .i64sF64 | .i64sF32 => 9223372036854775807
  | .i64uF64 | .i64uF32 => 18446744073709551615

/-- The `minResult` constant of each saturating truncation. -/
def satMinResult : TruncOp → Int
  | .i32sF64 | .i32sF32 => -2147483648
  | .i64sF64 | .i64sF32 => -9223372036854775808
  | _ => 0

/-- Translated from `requiresNaNCheck` in `truncSaturated`: only the
signed forms need the explicit `Equal(arg, arg)` NaN test, because the
unsigned forms' `minResult` is already zero. -/
def satRequiresNaNCheck : TruncOp → Bool
  | .i32sF64 | .i32sF32 | .i64sF64 | .i64sF32 => true
  | _ => false

/-- The `intermediate` value of `truncSaturated`: the hardware truncate
patchpoint (32-bit results) or the runtime CCall (64-bit results); on
the finite inputs for which it is selected it truncates toward zero. -/
def satIntermediate : FVal → Int
  | .fin q => truncQ q
  | .nan => 0

/-- Translated from the final `Select` tree of `truncSaturated`:
`Select(arg > minFloat, Select(arg < maxFloat, intermediate, maxResult),
requiresNaNCheck ? Select(arg == arg, minResult, zero) : minResult)`. -/
def truncSaturated (op : TruncOp) (x : FVal) : Int :=
  if fGreaterThan x (.fin (satMinFloat op)) then
    if fLessThan x (.fin (satMaxFloat op)) then satIntermediate x
    else satMaxResult op
  else if satRequiresNaNCheck op then
    (if fEqual x x then satMinResult op else 0)
  else satMinResult op

/-- Helper: the saturating `Select` tree on a finite operand clamps at
the boundaries and truncates in between. -/
theorem satSelect_spec (mn mx : Rat) (minR maxR : Int) (nanChk : Bool)
    (hlt : mn < mx) (q : Rat) :
    (if fGreaterThan (.fin q) (.fin mn) then
       (if fLessThan (.fin q) (.fin mx) then satIntermediate (.fin q)
        else maxR)
     else if nanChk then
       (if fEqual (.fin q) (.fin q) then minR else 0)
     else minR) =
    (if mx ≤ q then maxR else if q ≤ mn then minR else truncQ q) := by
  by_cases hmn : mn < q
  · by_cases hmx : q < mx
    · have h1 : ¬ mx ≤ q := not_le.mpr hmx
      have h2 : ¬ q ≤ mn := not_le.mpr hmn
      simp [fGreaterThan, fLessThan, hmn, hmx, h1, h2, satIntermediate]
    · have h1 : mx ≤ q := not_lt.mp hmx
      simp [fGreaterThan, fLessThan, hmn, hmx, h1]
  · have h2 : q ≤ mn := not_lt.mp hmn
    have h1 : ¬ mx ≤ q := by
      intro hc
      exact absurd (lt_of_lt_of_le hlt hc) hmn
    cases nanChk <;>
      simp [fGreaterThan, fLessThan, fEqual, hmn, h1, h2]

/-- C7: the trapping truncations trap OutOfBoundsTrunc on NaN, and let a
finite operand through exactly when it lies strictly below the `max`
constant and above (or at, for the `GreaterEqual` forms) the `min`
constant; those constants are exactly one past the target type's
maximum, respectively the type's minimum (`GreaterEqual` forms) or one
below it.  The saturating truncations never trap: NaN yields 0, values
at or above `maxFloat` yield the type's maximum, values at or below
`minFloat` yield the type's minimum (which is already 0 for the
unsigned forms, so NaN also lands on 0 there), and values in between are
truncated by the hardware/CCall intermediate. -/
theorem trunc_trapping_and_saturating (op : TruncOp) (q : Rat) :
    truncTraps op .nan = true ∧
    (truncTraps op (.fin q) = false ↔
      (q < truncMax op ∧
        (if truncMinIsGE op then truncMin op ≤ q else truncMin op < q))) ∧
    truncMax op = (truncIntMax op : Rat) + 1 ∧
    truncMin op =
      (if truncMinIsGE op then (truncIntMin op : Rat)
       else (truncIntMin op : Rat) - 1) ∧
    truncSaturated op .nan = 0 ∧
    truncSaturated op (.fin q) =
      (if satMaxFloat op ≤ q then satMaxResult op
       else if q ≤ satMinFloat op then satMinResult op
       else truncQ q) ∧
    (satRequiresNaNCheck op || decide (satMinResult op = 0)) = true := by
  refine ⟨?_, ?_, ?_, ?_, ?_, ?_, ?_⟩
  · cases op <;> rfl
  · cases op <;>
      simp [truncTraps, truncMinIsGE, fLessThan, fGreaterEqual,
        fGreaterThan, truncMax, truncMin, and_comm]
  · cases op <;> norm_num [truncMax, truncIntMax]
  · cases op <;> norm_num [truncMin, truncIntMin, truncMinIsGE]
  · cases op <;> rfl
  · cases op <;>
      exact satSelect_spec _ _ _ _ _ (by norm_num [satMinFloat, satMaxFloat]) q
  · cases op <;> rfl

/-! ## Direct-call lowering and the inlining decision (`addCall`, `canInline`) -/

/-- The state `addCall` consults when lowering a direct call: the call
shape, facts about the target from the module info, the inlining budget
counters (depth, the root frame's accumulated inlined bytes), the
compilation mode, and the native-stack headroom probe
(`StackCheck().isSafeToRecurse()`). -/
structure CallContext where
  isTailCall : Bool
  targetIsImport : Bool
  targetIsSelf : Bool
  calleeSize : Nat
  maximumWasmCalleeSizeForInlining : Nat
  isAnyOMGMode : Bool
  inlineDepth : Nat
  maximumWasmDepthForInlining : Nat
  rootInlinedBytes : Nat
  maximumWasmCallerSizeForInlining : Nat
  stackCheckSafe : Bool
  callCanClobberInstance : Bool
  deriving DecidableEq, Repr

/-- Translated from `OMGIRGenerator::canInline`: depth below the inlining
depth limit, the root frame's accumulated inlined bytes below the caller
size limit, and (beyond depth 1) the native-stack recursion probe. -/
def canInline (c : CallContext) : Bool :=
  decide (c.inlineDepth < c.maximumWasmDepthForInlining) &&
  decide (c.rootInlinedBytes < c.maximumWasmCallerSizeForInlining) &&
  (decide (c.inlineDepth ≤ 1) || c.stackCheckSafe)

/-- The lowering `addCall` chooses for a direct call. -/
inductive CallShape where
  | importStubCall
  | importStubTailCall
  | relocatedTailCall
  | inlined
  | relocatedCall
  deriving DecidableEq, Repr

/-- Translated from the control flow of `OMGIRGenerator::addCall`: an
imported target calls (or tail-calls) through the stub pointer loaded
from the instance's import-function table; a non-imported tail call
emits a patchable near tail call recorded as an unlinked wasm-to-wasm
relocation; a plain call is inlined when the target is not the caller
itself, the callee's wasm size is below the callee limit, the
compilation mode is an OMG mode, `canInline()` holds, and the call
cannot clobber the active instance; otherwise a patchable near call with
an unlinked wasm-to-wasm relocation is emitted. -/
def addCall (c : CallContext) : CallShape :=
  if c.targetIsImport then
    (if c.isTailCall then .importStubTailCall else .importStubCall)
  else if c.isTailCall then .relocatedTailCall
  else if !c.targetIsSelf &&
      decide (c.calleeSize < c.maximumWasmCalleeSizeForInlining) &&
      c.isAnyOMGMode && canInline c && !c.callCanClobberInstance then
    .inlined
  else .relocatedCall

/-- The inlining condition exactly as claim C8 words it: not a tail
call, not imported, not self, callee size below the callee limit, depth
below the depth limit, root inlined bytes below the caller limit, and
no possible instance clobber.  (Stated from the specification for
comparison against `addCall`; note it omits the compilation-mode and
stack-headroom conjuncts.) -/
def claimedInlineCondition (c : CallContext) : Bool :=
  !c.isTailCall && !c.targetIsImport && !c.targetIsSelf &&
  decide (c.calleeSize < c.maximumWasmCalleeSizeForInlining) &&
  decide (c.inlineDepth < c.maximumWasmDepthForInlining) &&
  decide (c.rootInlinedBytes < c.maximumWasmCallerSizeForInlining) &&
  !c.callCanClobberInstance

/-- Counterexample to C8 as stated: at inline depth 2 with the
native-stack headroom probe failing, every condition the claim lists
holds, yet `addCall` emits a relocated direct call instead of inlining;
moreover a non-tail call to an imported target (which the claim's
"every other case" covers) goes through the import stub, not a
relocation-patched direct call. -/
theorem addCall_claimed_condition_refuted :
    (claimedInlineCondition
        ⟨false, false, false, 10, 100, true, 2, 7, 0, 1000, false, false⟩ =
      true ∧
     addCall
        ⟨false, false, false, 10, 100, true, 2, 7, 0, 1000, false, false⟩ =
       .relocatedCall) ∧
    (claimedInlineCondition
        ⟨false, true, false, 10, 100, true, 0, 7, 0, 1000, true, false⟩ =
      false ∧
     addCall
        ⟨false, true, false, 10, 100, true, 0, 7, 0, 1000, true, false⟩ =
       .importStubCall) := by
  decide

/-- C8 (amended): a direct call is inlined exactly when the claim's
conditions hold and additionally the compilation mode is an OMG mode
and, at inline depth above 1, the native-stack headroom probe passes;
a non-inlined call to a non-imported target is lowered as a patchable
call (tail or plain) resolved by an unlinked wasm-to-wasm relocation,
while an imported target is called through the instance's import stub. -/
theorem addCall_inline_decision (c : CallContext) :
    (addCall c = .inlined ↔
      (claimedInlineCondition c = true ∧ c.isAnyOMGMode = true ∧
       (c.inlineDepth ≤ 1 ∨ c.stackCheckSafe = true))) ∧
    (addCall c =
      (if c.targetIsImport then
        (if c.isTailCall then CallShape.importStubTailCall
         else CallShape.importStubCall)
       else if c.isTailCall then CallShape.relocatedTailCall
       else if addCall c = .inlined then CallShape.inlined
       else CallShape.relocatedCall)) := by
  constructor
  · unfold addCall claimedInlineCondition canInline
    rcases c with ⟨tail, imp, self, sz, szLim, omg, dep, depLim, by_, byLim,
      stk, clob⟩
    cases tail <;> cases imp <;> cases self <;> cases omg <;> cases stk <;>
      cases clob <;>
      simp +decide [CallShape.inlined] <;> omega
  · unfold addCall
    rcases c with ⟨tail, imp, self, sz, szLim, omg, dep, depLim, by_, byLim,
      stk, clob⟩
    cases tail <;> cases imp <;> simp <;>
      exact if_congr (by tauto) rfl rfl

/-! ## The operand-slot manager (`getPushVariable`, `push`, pops) -/

/-- The operand-slot manager's state: the stack-height counter
`m_stackSize`, its high-water mark `m_maxStackSize`, the slot vector
`m_stack` as (variable id, B3 type) pairs, and a fresh-variable counter
standing for `Procedure::addVariable`. -/
structure SlotState where
  stackSize : Nat
  maxStackSize : Nat
  stack : List (Nat × B3Type)
  nextVar : Nat
  deriving DecidableEq, Repr

/-- Translated from `OMGIRGenerator::getPushVariable`: bump the height;
past the high-water mark allocate a fresh variable and append it to the
slot vector; otherwise reuse the existing slot at the new height when
its type matches the pushed type exactly, and replace it in place with a
fresh variable of the pushed type when it does not.  Returns the chosen
slot's variable id and the new state. -/
def getPushVariable (s : SlotState) (ty : B3Type) : Nat × SlotState :=
  if s.maxStackSize < s.stackSize + 1 then
    (s.nextVar,
     { stackSize := s.stackSize + 1
       maxStackSize := s.stackSize + 1
       stack := s.stack ++ [(s.nextVar, ty)]
       nextVar := s.nextVar + 1 })
  else if (s.stack.getD s.stackSize (0, .int32)).2 = ty then
    ((s.stack.getD s.stackSize (0, .int32)).1,
     { s with stackSize := s.stackSize + 1 })
  else
    (s.nextVar,
     { stackSize := s.stackSize + 1
       maxStackSize := s.maxStackSize
       stack := s.stack.set s.stackSize (s.nextVar, ty)
       nextVar := s.nextVar + 1 })

/-- `OMGIRGenerator::push` stores the pushed value into the slot
`getPushVariable` picks; the slot-state evolution is `getPushVariable`'s. -/
def push (s : SlotState) (ty : B3Type) : SlotState := (getPushVariable s ty).2

/-- Translated from `didPopValueFromStack`: popping only decrements the
height counter (`--m_stackSize`); the slot stays for reuse. -/
def popSlot (s : SlotState) : SlotState :=
  { s with stackSize := s.stackSize - 1 }

/-- The slot manager's invariants: the slot vector's length is exactly
the high-water mark, the height never exceeds it, slot variable ids are
pairwise distinct (so the live slots — the prefix of length `stackSize` —
never alias), and every id is below the fresh-variable counter. -/
structure SlotState.WF (s : SlotState) : Prop where
  lenEq : s.stack.length = s.maxStackSize
  sizeLe : s.stackSize ≤ s.maxStackSize
  nodup : (s.stack.map Prod.fst).Nodup
  bounded : ∀ v ∈ s.stack.map Prod.fst, v < s.nextVar

/-- Setting an id that occurs nowhere in a duplicate-free list keeps it
duplicate-free. -/
theorem nodup_set_of_not_mem {l : List Nat} {v : Nat} (i : Nat)
    (hn : l.Nodup) (hv : v ∉ l) : (l.set i v).Nodup := by
  induction l generalizing i with
  | nil => simpa using hn
  | cons a t ih =>
    rw [List.nodup_cons] at hn
    have hva : v ≠ a := fun h => hv (h ▸ List.mem_cons_self a t)
    have hvt : v ∉ t := fun h => hv (List.mem_cons_of_mem a h)
    cases i with
    | zero =>
      rw [List.set_cons_zero, List.nodup_cons]
      exact ⟨hvt, hn.2⟩
    | succ j =>
      rw [List.set_cons_succ, List.nodup_cons]
      refine ⟨?_, ih j hn.2 hvt⟩
      intro hmem
      rcases List.mem_or_eq_of_mem_set hmem with hmem | hmem
      · exact hn.1 hmem
      · exact hva hmem.symm

/-- `push` preserves the slot invariants, increments the height by one,
and never shrinks the high-water mark or the variable counter. -/
theorem push_spec {s : SlotState} (hwf : s.WF) (ty : B3Type) :
    (push s ty).WF ∧ (push s ty).stackSize = s.stackSize + 1 ∧
    s.maxStackSize ≤ (push s ty).maxStackSize ∧
    s.nextVar ≤ (push s ty).nextVar := by
  have hsl := hwf.sizeLe
  unfold push getPushVariable
  by_cases hmax : s.maxStackSize < s.stackSize + 1
  · rw [if_pos hmax]
    have hfresh : s.nextVar ∉ s.stack.map Prod.fst := by
      intro hmem
      exact absurd (hwf.bounded _ hmem) (lt_irrefl _)
    refine ⟨⟨?_, ?_, ?_, ?_⟩, rfl, ?_, ?_⟩
    · show (s.stack ++ [(s.nextVar, ty)]).length = s.stackSize + 1
      rw [List.length_append, hwf.lenEq]
      simp only [List.length_singleton]
      omega
    · exact le_refl _
    · show ((s.stack ++ [(s.nextVar, ty)]).map Prod.fst).Nodup
      rw [List.map_append, List.nodup_append]
      refine ⟨hwf.nodup, by simp, ?_⟩
      intro x hx hx'
      simp at hx'
      exact hfresh (hx' ▸ hx)
    · show ∀ v ∈ (s.stack ++ [(s.nextVar, ty)]).map Prod.fst,
        v < s.nextVar + 1
      intro v hv
      rw [List.map_append] at hv
      rcases List.mem_append.mp hv with hv | hv
      · exact Nat.lt_succ_of_lt (hwf.bounded _ hv)
      · simp at hv
        omega
    · show s.maxStackSize ≤ s.stackSize + 1
      omega
    · show s.nextVar ≤ s.nextVar + 1
      omega
  · rw [if_neg hmax]
    by_cases hty : (s.stack.getD s.stackSize (0, .int32)).2 = ty
    · rw [if_pos hty]
      refine ⟨⟨hwf.lenEq, ?_, hwf.nodup, hwf.bounded⟩, rfl,
        le_refl _, le_refl _⟩
      show s.stackSize + 1 ≤ s.maxStackSize
      omega
    · rw [if_neg hty]
      have hfresh : s.nextVar ∉ s.stack.map Prod.fst := by
        intro hmem
        exact absurd (hwf.bounded _ hmem) (lt_irrefl _)
      refine ⟨⟨?_, ?_, ?_, ?_⟩, rfl, le_refl _, ?_⟩
      · show (s.stack.set s.stackSize (s.nextVar, ty)).length =
          s.maxStackSize
        rw [List.length_set, hwf.lenEq]
      · show s.stackSize + 1 ≤ s.maxStackSize
        omega
      · show ((s.stack.set s.stackSize (s.nextVar, ty)).map Prod.fst).Nodup
        rw [List.map_set]
        exact nodup_set_of_not_mem _ hwf.nodup hfresh
      · show ∀ v ∈ (s.stack.set s.stackSize (s.nextVar, ty)).map Prod.fst,
          v < s.nextVar + 1
        intro v hv
        rw [List.map_set] at hv
        rcases List.mem_or_eq_of_mem_set hv with hv | hv
        · exact Nat.lt_succ_of_lt (hwf.bounded _ hv)
        · omega
      · show s.nextVar ≤ s.nextVar + 1
        omega

/-- Restoring the height counter (the assignments
`m_stackSize = data.stackSize()` and friends): only the height field
changes. -/
def withStackSize (s : SlotState) (n : Nat) : SlotState :=
  { s with stackSize := n }

/-- Restoring the height counter to any value at or below the high-water
mark preserves the invariants. -/
theorem wf_withStackSize {s : SlotState} (hwf : s.WF) {n : Nat}
    (hn : n ≤ s.maxStackSize) :
    SlotState.WF (withStackSize s n) :=
  ⟨hwf.lenEq, hn, hwf.nodup, hwf.bounded⟩

/-- Pushing a list of phi types in order (the close-time
re-materialization of each merge value via `push`). -/
def pushList (s : SlotState) (ts : List B3Type) : SlotState :=
  ts.foldl push s

/-- `pushList` preserves the invariants and adds the list length to the
height. -/
theorem pushList_spec {s : SlotState} (hwf : s.WF) (ts : List B3Type) :
    (pushList s ts).WF ∧
    (pushList s ts).stackSize = s.stackSize + ts.length ∧
    s.maxStackSize ≤ (pushList s ts).maxStackSize ∧
    s.nextVar ≤ (pushList s ts).nextVar := by
  induction ts generalizing s with
  | nil => exact ⟨hwf, rfl, le_refl _, le_refl _⟩
  | cons t rest ih =>
    obtain ⟨hw1, hs1, hm1, hn1⟩ := push_spec hwf t
    obtain ⟨hw2, hs2, hm2, hn2⟩ := ih hw1
    refine ⟨hw2, ?_, le_trans hm1 hm2, le_trans hn1 hn2⟩
    show (pushList (push s t) rest).stackSize = s.stackSize + (rest.length + 1)
    rw [hs2, hs1]
    omega

/-! ## Structured stack discipline (claim C3) -/

/-- Construct kinds without an alternative body.  An `If` whose else is
absent closes exactly like a Block (`addEndToUnreachable` only adds the
jump from the not-taken block), as does a Try no exception reaches. -/
inductive CtrlKind where
  | block
  | loop
  | ifNoElse
  | tryNoCatch
  deriving DecidableEq, Repr

/-- Construct kinds with an alternative body. -/
inductive AltKind where
  | ifElse
  | tryCatch
  deriving DecidableEq, Repr

/-- The operand-stack shape of a structured function body as the
bytecode walker mirrors it into the generator: pushes, pops, and nested
control constructs.  `ctrl k a rts body` is a Block/Loop/If/Try with `a`
block arguments and result types `rts`; `ctrlAlt k a rts payload body
alt` is an If with an else body (`payload = []`) or a Try with one
catch handler whose exception payload types are `payload`. -/
inductive Prog where
  | nop
  | pushOp (ty : B3Type)
  | popOp
  | seq (a b : Prog)
  | ctrl (k : CtrlKind) (a : Nat) (rts : List B3Type) (body : Prog)
  | ctrlAlt (k : AltKind) (a : Nat) (rts : List B3Type)
      (payload : List B3Type) (body alt : Prog)

/-- The height (relative to the construct's recorded entry) at which an
alternative body starts: an else body resumes with the construct's
arguments restored (`addElseToUnreachable` sets
`m_stackSize = data.stackSize() + argumentCount`); a catch handler
resumes at the entry height (`emitCatchImpl`) and then receives its
exception payload (`addCatchToUnreachable`). -/
def altStartHeight (k : AltKind) (a : Nat) (payload : List B3Type) : Nat :=
  if k = .ifElse then a else payload.length

/-- Validity of a structured program relative to its enclosing
construct: `Valid h p h'` means that starting with `h` operands above
the enclosing construct's entry height, `p` never pops below that entry
height and finishes with `h'` operands above it — the discipline the
upstream bytecode validator guarantees for the input this generator is
fed. -/
inductive Valid : Nat → Prog → Nat → Prop where
  | nop {h : Nat} : Valid h .nop h
  | pushOp {h : Nat} {ty : B3Type} : Valid h (.pushOp ty) (h + 1)
  | popOp {h : Nat} : Valid (h + 1) .popOp h
  | seq {h h1 h2 : Nat} {a b : Prog} :
      Valid h a h1 → Valid h1 b h2 → Valid h (.seq a b) h2
  | ctrl {h a : Nat} {k : CtrlKind} {rts : List B3Type} {body : Prog} :
      a ≤ h → Valid a body rts.length →
      Valid h (.ctrl k a rts body) (h - a + rts.length)
  | ctrlAlt {h a : Nat} {k : AltKind} {rts payload : List B3Type}
      {body alt : Prog} :
      a ≤ h → Valid a body rts.length →
      Valid (altStartHeight k a payload) alt rts.length →
      Valid h (.ctrlAlt k a rts payload body alt) (h - a + rts.length)

/-- One walk of the generator's stack bookkeeping over a program.  Each
construct records `entry = m_stackSize - argumentCount` (the
`ControlData` constructor); closing (`addEndToUnreachable`) restores
`m_stackSize = data.stackSize()` and then re-materializes the results —
for a Loop by re-counting the slots the body left on the stack
(`++m_stackSize` per available entry and a fresh constant push per
missing one), for every other kind by pushing each merge phi.  An else
conversion restores `entry + argumentCount`; a catch conversion restores
`entry` and pushes the exception payload.  The second component records
whether at every close/else/catch point the height counter had in fact
returned to the construct's recorded entry value plus the declared
result count, i.e. whether the restoring assignments merely restate the
height the stack discipline already guarantees. -/
def interp : Prog → SlotState → SlotState × Bool
  | .nop, s => (s, true)
  | .pushOp ty, s => (push s ty, true)
  | .popOp, s => (popSlot s, true)
  | .seq a b, s =>
    let r1 := interp a s
    let r2 := interp b r1.1
    (r2.1, r1.2 && r2.2)
  | .ctrl k a rts body, s =>
    let entry := s.stackSize - a
    let r1 := interp body s
    let okClose := r1.1.stackSize == entry + rts.length
    if k = .loop then
      let reuse := min rts.length (r1.1.stackSize - entry)
      (pushList (withStackSize r1.1 (entry + reuse)) (rts.drop reuse),
       r1.2 && okClose)
    else
      (pushList (withStackSize r1.1 entry) rts, r1.2 && okClose)
  | .ctrlAlt k a rts payload body alt, s =>
    let entry := s.stackSize - a
    let r1 := interp body s
    let okMid := r1.1.stackSize == entry + rts.length
    let sAlt := if k = .ifElse then withStackSize r1.1 (entry + a)
      else pushList (withStackSize r1.1 entry) payload
    let r2 := interp alt sAlt
    let okClose := r2.1.stackSize == entry + rts.length
    (pushList (withStackSize r2.1 entry) rts,
     r1.2 && okMid && r2.2 && okClose)

/-- C3: running the generator's stack bookkeeping over any valid
structured program from any well-formed state: every construct close
(and every else/catch conversion) finds the height counter back at the
construct's recorded entry value plus the declared result count (the
`true` flag), the final height is the one the validity derivation
predicts, and the slot invariants are preserved throughout — in
particular the slot ids stay pairwise distinct, so slot reuse never
aliases two simultaneously-live values (the live values occupy the
distinct slots `stack[0] .. stack[stackSize-1]`). -/
theorem stack_discipline (p : Prog) (h h' : Nat) (hv : Valid h p h') :
    ∀ (s : SlotState) (base : Nat), s.stackSize = base + h → s.WF →
    (interp p s).2 = true ∧
    (interp p s).1.stackSize = base + h' ∧
    (interp p s).1.WF ∧
    ((interp p s).1.stack.map Prod.fst).Nodup ∧
    s.maxStackSize ≤ (interp p s).1.maxStackSize := by
  induction hv with
  | nop =>
    intro s base hs hwf
    exact ⟨rfl, hs, hwf, hwf.nodup, le_refl _⟩
  | pushOp =>
    rename_i h ty
    intro s base hs hwf
    obtain ⟨hw, hsz, hm, _⟩ := push_spec hwf ty
    refine ⟨rfl, ?_, hw, hw.nodup, hm⟩
    show (push s ty).stackSize = base + (h + 1)
    rw [hsz]
    omega
  | popOp =>
    rename_i h
    intro s base hs hwf
    have hle := hwf.sizeLe
    refine ⟨rfl, ?_, ⟨hwf.lenEq, ?_, hwf.nodup, hwf.bounded⟩, hwf.nodup,
      le_refl _⟩
    · show s.stackSize - 1 = base + h
      omega
    · show s.stackSize - 1 ≤ s.maxStackSize
      omega
  | seq hva hvb iha ihb =>
    rename_i h h1 h2 a b
    intro s base hs hwf
    obtain ⟨hok1, hs1, hw1, _, hm1⟩ := iha s base hs hwf
    obtain ⟨hok2, hs2, hw2, hn2, hm2⟩ := ihb (interp a s).1 base hs1 hw1
    refine ⟨?_, ?_, hw2, hn2, le_trans hm1 hm2⟩
    · show ((interp a s).2 && (interp b (interp a s).1).2) = true
      rw [hok1, hok2]
      rfl
    · exact hs2
  | ctrl hah hvb ih =>
    rename_i h a k rts body
    intro s base hs hwf
    obtain ⟨hok1, hs1, hw1, _, hm1⟩ := ih s (base + (h - a)) (by omega) hwf
    have hszle := hw1.sizeLe
    have hsle : s.stackSize - a + rts.length ≤
        (interp body s).1.maxStackSize := by omega
    have hokc : ((interp body s).1.stackSize ==
        s.stackSize - a + rts.length) = true := by
      rw [beq_iff_eq]
      omega
    have hwmid : SlotState.WF
        (withStackSize (interp body s).1 (s.stackSize - a)) :=
      wf_withStackSize hw1 (by omega)
    by_cases hk : k = .loop
    · subst hk
      have hmin : min rts.length
          ((interp body s).1.stackSize - (s.stackSize - a)) = rts.length := by
        omega
      simp only [interp, reduceIte, hmin, List.drop_length]
      have hwmid2 : SlotState.WF
          (withStackSize (interp body s).1
            (s.stackSize - a + rts.length)) :=
        wf_withStackSize hw1 hsle
      obtain ⟨hw2, hs2, hm2, _⟩ := pushList_spec hwmid2 []
      have hs2' : (pushList (withStackSize (interp body s).1
          (s.stackSize - a + rts.length)) []).stackSize
          = s.stackSize - a + rts.length + 0 := hs2
      have hm2' : (interp body s).1.maxStackSize ≤
          (pushList (withStackSize (interp body s).1
            (s.stackSize - a + rts.length)) []).maxStackSize := hm2
      refine ⟨by rw [hok1, hokc]; rfl, ?_, hw2, hw2.nodup,
        le_trans hm1 hm2'⟩
      rw [hs2']
      omega
    · simp only [interp, if_neg hk]
      obtain ⟨hw2, hs2, hm2, _⟩ := pushList_spec hwmid rts
      have hs2' : (pushList (withStackSize (interp body s).1
          (s.stackSize - a)) rts).stackSize
          = s.stackSize - a + rts.length := hs2
      have hm2' : (interp body s).1.maxStackSize ≤
          (pushList (withStackSize (interp body s).1
            (s.stackSize - a)) rts).maxStackSize := hm2
      refine ⟨by rw [hok1, hokc]; rfl, ?_, hw2, hw2.nodup,
        le_trans hm1 hm2'⟩
      rw [hs2']
      omega
  | ctrlAlt hah hvb hva ihb iha =>
    rename_i h a k rts payload body alt
    intro s base hs hwf
    obtain ⟨hok1, hs1, hw1, _, hm1⟩ := ihb s (base + (h - a)) (by omega) hwf
    have hszle1 := hw1.sizeLe
    have hwfle := hwf.sizeLe
    have hokm : ((interp body s).1.stackSize ==
        s.stackSize - a + rts.length) = true := by
      rw [beq_iff_eq]
      omega
    by_cases hk : k = .ifElse
    · subst hk
      have hwAlt : SlotState.WF
          (withStackSize (interp body s).1 (s.stackSize - a + a)) :=
        wf_withStackSize hw1 (by omega)
      have hstart : (withStackSize (interp body s).1
          (s.stackSize - a + a)).stackSize =
          (s.stackSize - a) + altStartHeight .ifElse a payload := by
        simp [withStackSize, altStartHeight]
      obtain ⟨hok2, hs2, hw2, _, hm2⟩ := iha
        (withStackSize (interp body s).1 (s.stackSize - a + a))
        (s.stackSize - a) hstart hwAlt
      have hszle2 := hw2.sizeLe
      have hokc : ((interp alt (withStackSize (interp body s).1
          (s.stackSize - a + a))).1.stackSize ==
          s.stackSize - a + rts.length) = true := by
        rw [beq_iff_eq, hs2]
      have hwmid : SlotState.WF
          (withStackSize (interp alt (withStackSize (interp body s).1
            (s.stackSize - a + a))).1 (s.stackSize - a)) :=
        wf_withStackSize hw2 (by omega)
      obtain ⟨hw3, hs3, hm3, _⟩ := pushList_spec hwmid rts
      have hs3' : (pushList (withStackSize (interp alt
          (withStackSize (interp body s).1 (s.stackSize - a + a))).1
            (s.stackSize - a)) rts).stackSize =
          s.stackSize - a + rts.length := hs3
      have hm3' : (interp alt (withStackSize (interp body s).1
          (s.stackSize - a + a))).1.maxStackSize ≤
          (pushList (withStackSize (interp alt (withStackSize
            (interp body s).1 (s.stackSize - a + a))).1
              (s.stackSize - a)) rts).maxStackSize := hm3
      have hm2' : (interp body s).1.maxStackSize ≤
          (interp alt (withStackSize (interp body s).1
            (s.stackSize - a + a))).1.maxStackSize := hm2
      simp only [interp, reduceIte]
      refine ⟨by rw [hok1, hokm, hok2, hokc]; rfl, ?_, hw3, hw3.nodup,
        le_trans hm1 (le_trans hm2' hm3')⟩
      rw [hs3']
      omega
    · have hk' : k = .tryCatch := by
        cases k
        · exact absurd rfl hk
        · rfl
      subst hk'
      have hwe : SlotState.WF
          (withStackSize (interp body s).1 (s.stackSize - a)) :=
        wf_withStackSize hw1 (by omega)
      obtain ⟨hwp, hsp, hmp, _⟩ := pushList_spec hwe payload
      have hstart : (pushList (withStackSize (interp body s).1
          (s.stackSize - a)) payload).stackSize =
          (s.stackSize - a) + altStartHeight .tryCatch a payload := by
        rw [hsp]
        simp [withStackSize, altStartHeight]
      obtain ⟨hok2, hs2, hw2, _, hm2⟩ := iha
        (pushList (withStackSize (interp body s).1
          (s.stackSize - a)) payload)
        (s.stackSize - a) hstart hwp
      have hszle2 := hw2.sizeLe
      have hokc : ((interp alt (pushList (withStackSize (interp body s).1
          (s.stackSize - a)) payload)).1.stackSize ==
          s.stackSize - a + rts.length) = true := by
        rw [beq_iff_eq, hs2]
      have hwmid2 : SlotState.WF
          (withStackSize (interp alt (pushList (withStackSize
            (interp body s).1 (s.stackSize - a)) payload)).1
              (s.stackSize - a)) :=
        wf_withStackSize hw2 (by omega)
      obtain ⟨hw3, hs3, hm3, _⟩ := pushList_spec hwmid2 rts
      have hs3' : (pushList (withStackSize (interp alt (pushList
          (withStackSize (interp body s).1 (s.stackSize - a))
            payload)).1 (s.stackSize - a)) rts).stackSize =
          s.stackSize - a + rts.length := hs3
      have hm3' : (interp alt (pushList (withStackSize (interp body s).1
          (s.stackSize - a)) payload)).1.maxStackSize ≤
          (pushList (withStackSize (interp alt (pushList (withStackSize
            (interp body s).1 (s.stackSize - a)) payload)).1
              (s.stackSize - a)) rts).maxStackSize := hm3
      have hmp' : (interp body s).1.maxStackSize ≤
          (pushList (withStackSize (interp body s).1
            (s.stackSize - a)) payload).maxStackSize := hmp
      simp only [interp]
      rw [if_neg (by decide : ¬ (AltKind.tryCatch = AltKind.ifElse))]
      refine ⟨by rw [hok1, hokm, hok2, hokc]; rfl, ?_, hw3, hw3.nodup,
        le_trans hm1 (le_trans hmp' (le_trans hm2 hm3'))⟩
      rw [hs3']
      omega

/-- A small structured program exercising push, a Block construct with
one argument and one result, a pop and a cross-type push. -/
def progW : Prog :=
  .seq (.pushOp .int32)
    (.ctrl .block 1 [.int32] (.seq .popOp (.pushOp .float)))

/-- Witness for `stack_discipline` on `progW` from the empty state. -/
theorem stack_discipline_witness :
    Valid 0 progW 1 ∧
    (⟨0, 0, [], 0⟩ : SlotState).stackSize = 0 + 0 ∧
    SlotState.WF ⟨0, 0, [], 0⟩ ∧
    ((interp progW ⟨0, 0, [], 0⟩).2 = true ∧
     (interp progW ⟨0, 0, [], 0⟩).1.stackSize = 0 + 1 ∧
     (interp progW ⟨0, 0, [], 0⟩).1.WF ∧
     ((interp progW ⟨0, 0, [], 0⟩).1.stack.map Prod.fst).Nodup ∧
     (⟨0, 0, [], 0⟩ : SlotState).maxStackSize ≤
       (interp progW ⟨0, 0, [], 0⟩).1.maxStackSize) := by
  have hv : Valid 0 progW 1 :=
    Valid.seq Valid.pushOp
      (Valid.ctrl (le_refl 1) (Valid.seq Valid.popOp Valid.pushOp))
  have hwf : SlotState.WF ⟨0, 0, [], 0⟩ :=
    ⟨rfl, le_refl 0, List.nodup_nil, by simp⟩
  exact ⟨hv, rfl, hwf, stack_discipline progW 0 1 hv ⟨0, 0, [], 0⟩ 0 rfl hwf⟩

/-! ## Slot reuse policy (claim C10) -/

/-- C10: the slot vector keeps exactly one slot per observed height — its
length always equals the high-water mark of the height counter — and a
push at a previously observed height reuses the existing slot exactly
when its B3 type equals the pushed type; any type difference allocates a
fresh variable that replaces the old slot in place at that height,
keeping the vector length (and hence the number of slots, which the live
prefix `stackSize ≤ maxStackSize` never exceeds) unchanged; a push past
the high-water mark appends one fresh slot. -/
theorem getPushVariable_slot_policy (s : SlotState) (ty : B3Type)
    (hwf : s.WF) :
    ((getPushVariable s ty).2).WF ∧
    (getPushVariable s ty).2.stack.length =
      (getPushVariable s ty).2.maxStackSize ∧
    (getPushVariable s ty).2.stackSize = s.stackSize + 1 ∧
    (getPushVariable s ty).2.stackSize ≤
      (getPushVariable s ty).2.maxStackSize ∧
    (s.stackSize < s.maxStackSize →
      ((s.stack.getD s.stackSize (0, .int32)).2 = ty →
        (getPushVariable s ty).1 = (s.stack.getD s.stackSize (0, .int32)).1 ∧
        (getPushVariable s ty).2.stack = s.stack) ∧
      ((s.stack.getD s.stackSize (0, .int32)).2 ≠ ty →
        (getPushVariable s ty).1 = s.nextVar ∧
        (getPushVariable s ty).2.stack =
          s.stack.set s.stackSize (s.nextVar, ty) ∧
        (getPushVariable s ty).2.stack.length = s.stack.length)) ∧
    (s.stackSize = s.maxStackSize →
      (getPushVariable s ty).2.stack = s.stack ++ [(s.nextVar, ty)]) := by
  obtain ⟨hw, hsz, _, _⟩ := push_spec hwf ty
  refine ⟨hw, hw.lenEq, hsz, hw.sizeLe, ?_, ?_⟩
  · intro hlt
    have hcond : ¬ s.maxStackSize < s.stackSize + 1 := by omega
    constructor
    · intro hty
      unfold getPushVariable
      rw [if_neg hcond, if_pos hty]
      exact ⟨rfl, rfl⟩
    · intro hty
      unfold getPushVariable
      rw [if_neg hcond, if_neg hty]
      exact ⟨rfl, rfl, by rw [List.length_set]⟩
  · intro heq
    have hcond : s.maxStackSize < s.stackSize + 1 := by omega
    unfold getPushVariable
    rw [if_pos hcond]

/-- Witness for `getPushVariable_slot_policy`: pushing a Float at height
0 over a slot currently typed Int32 (same 32-bit width, different B3
type) replaces the slot with a fresh variable in place. -/
theorem getPushVariable_slot_policy_witness :
    SlotState.WF ⟨0, 1, [(0, .int32)], 1⟩ ∧
    (((getPushVariable ⟨0, 1, [(0, .int32)], 1⟩ .float).2).WF ∧
     (getPushVariable ⟨0, 1, [(0, .int32)], 1⟩ .float).2.stack.length =
       (getPushVariable ⟨0, 1, [(0, .int32)], 1⟩ .float).2.maxStackSize ∧
     (getPushVariable ⟨0, 1, [(0, .int32)], 1⟩ .float).2.stackSize = 0 + 1 ∧
     (getPushVariable ⟨0, 1, [(0, .int32)], 1⟩ .float).2.stackSize ≤
       (getPushVariable ⟨0, 1, [(0, .int32)], 1⟩ .float).2.maxStackSize ∧
     ((0 : Nat) < 1 →
       ((([((0 : Nat), B3Type.int32)].getD 0 (0, .int32)).2 = .float →
         (getPushVariable ⟨0, 1, [(0, .int32)], 1⟩ .float).1 =
           ([((0 : Nat), B3Type.int32)].getD 0 (0, .int32)).1 ∧
         (getPushVariable ⟨0, 1, [(0, .int32)], 1⟩ .float).2.stack =
           [(0, .int32)]) ∧
       (([((0 : Nat), B3Type.int32)].getD 0 (0, .int32)).2 ≠ .float →
         (getPushVariable ⟨0, 1, [(0, .int32)], 1⟩ .float).1 = 1 ∧
         (getPushVariable ⟨0, 1, [(0, .int32)], 1⟩ .float).2.stack =
           [((0 : Nat), B3Type.int32)].set 0 (1, .float) ∧
         (getPushVariable ⟨0, 1, [(0, .int32)], 1⟩ .float).2.stack.length =
           [((0 : Nat), B3Type.int32)].length))) ∧
     ((0 : Nat) = 1 →
       (getPushVariable ⟨0, 1, [(0, .int32)], 1⟩ .float).2.stack =
         [((0 : Nat), B3Type.int32)] ++ [(1, .float)])) := by
  have hwf : SlotState.WF ⟨0, 1, [(0, .int32)], 1⟩ :=
    ⟨rfl, by decide, by simp, by simp⟩
  exact ⟨hwf, getPushVariable_slot_policy ⟨0, 1, [(0, .int32)], 1⟩ .float hwf⟩

end WasmOMG
